import Mathlib

set_option maxRecDepth 8000

/-!
Verification development for the 6MWT extraction pipeline
(`6mwt_app.py`): a shallow embedding of the core functions
(`process_file` and the computations in `main`) together with proofs of
the documented properties.

Modelling conventions:
* a cell is `Option String` (`none` = the XML `Data` node is missing or
  its text is `None`; an empty text behaves the same as a missing one,
  exactly as in the Python truthiness tests);
* a row is a list of cells, a table a list of rows;
* numbers are `ℚ` (the numeric payloads here are finite decimal
  literals, for which Python float arithmetic in this pipeline is used
  as exact decimal arithmetic);
* a missing / unparseable value is `none : Option ℚ`, mirroring the
  `None` sentinel of the script;
* Python exceptions that `process_file` raises are modelled by
  `Except String`.
-/

namespace SixMWT

/-- Models Python `str.strip()` on the whitespace the exports contain:
drops leading and trailing whitespace characters. -/
def pyStrip (s : String) : String :=
  String.mk (((s.toList.dropWhile Char.isWhitespace).reverse.dropWhile
    Char.isWhitespace).reverse)

/-- Models Python `str.upper()` for the ASCII text of the exports. -/
def pyUpper (s : String) : String :=
  String.mk (s.toList.map Char.toUpper)

/-- Models Python `str.replace(",", ".")`: every comma becomes a dot. -/
def commaToDot (s : String) : String :=
  String.mk (s.toList.map (fun c => if c = ',' then '.' else c))

/-- Value of a digit string (most significant first); `0` when empty. -/
def digitsToNat (cs : List Char) : Nat :=
  cs.foldl (fun a c => 10 * a + (c.toNat - 48)) 0

/-- Exponent suffix of a Python float literal: an optional sign and a
nonempty digit string, scaling the mantissa by a power of ten. -/
def expPart (mant : ℚ) (t : List Char) : Option ℚ :=
  let p : Int × List Char :=
    match t with
    | '+' :: u => (1, u)
    | '-' :: u => (-1, u)
    | _ => (1, t)
  if p.2 ≠ [] ∧ p.2.all Char.isDigit then
    some (mant * (10 : ℚ) ^ (p.1 * (digitsToNat p.2 : Int)))
  else none

/-- Models Python `float(s)` on finite decimal literals: optional
whitespace, optional sign, integer and/or fractional digits around an
optional dot, optional exponent. Non-literal forms (`inf`, `nan`,
digit-group underscores), which never occur in these exports, parse to
`none` like any other non-numeric text. -/
def pyFloat? (s : String) : Option ℚ :=
  let cs := (pyStrip s).toList
  let q : ℚ × List Char :=
    match cs with
    | '+' :: t => (1, t)
    | '-' :: t => (-1, t)
    | _ => (1, cs)
  let ip := q.2.takeWhile Char.isDigit
  let r1 := q.2.dropWhile Char.isDigit
  let m : List Char × List Char × Bool :=
    match r1 with
    | '.' :: t => (t.takeWhile Char.isDigit, t.dropWhile Char.isDigit,
        ip ≠ [] ∨ t.takeWhile Char.isDigit ≠ [])
    | _ => ([], r1, ip ≠ [])
  if m.2.2 = false then none
  else
    let mant : ℚ :=
      q.1 * ((digitsToNat ip : ℚ) + (digitsToNat m.1 : ℚ) / 10 ^ m.1.length)
    match m.2.1 with
    | [] => some mant
    | 'e' :: t => expPart mant t
    | 'E' :: t => expPart mant t
    | _ => none

/-- A row of the parsed export: the optional text of each `Data` node,
in cell order. `none` stands for a missing `Data` child or a `None`
text, which the script treats exactly like empty text. -/
abbrev Row := List (Option String)

/-- A table: the ordered `ss:Row` elements of the export. -/
abbrev Table := List Row

/-- The stripped text of cell `i` of a row, `""` when the cell, its
data, or its text is absent — the common access pattern
`data.text.strip() if (data is not None and data.text) else ""`. -/
def cellText (row : Row) (i : Nat) : String :=
  pyStrip (((row.get? i).bind id).getD "")

/-- The timestamp read for a boundary row: the stripped text of the cell
two columns left of the marker column when that position exists
(`marker_index - 2 >= 0 and marker_index - 2 < len(cells)` over Python
integers), else `""`. -/
def timeVal (mi : Nat) (row : Row) : String :=
  if 2 ≤ mi ∧ mi - 2 < row.length then cellText row (mi - 2) else ""

/-- One step of the subject-identity scan (`process_file` lines 18-31):
walking the cells of a row in order, a cell whose stripped upper-cased
text is `COGNOME` (resp. `NOME`) followed by a further cell with
nonempty text overwrites the surname (resp. name) accumulator with that
stripped text of the next cell. The Python guard `data is not None and
data.text` is subsumed: empty or missing text never equals the nonempty
labels. -/
def scanCells : Row → String × String → String × String
  | [], acc => acc
  | c :: rest, acc =>
    let txt := pyUpper (pyStrip (c.getD ""))
    let acc2 :=
      if txt = "COGNOME" ∧ rest ≠ [] then
        match rest.head? with
        | some (some s) => if s ≠ "" then (pyStrip s, acc.2) else acc
        | _ => acc
      else if txt = "NOME" ∧ rest ≠ [] then
        match rest.head? with
        | some (some s) => if s ≠ "" then (acc.1, pyStrip s) else acc
        | _ => acc
      else acc
    scanCells rest acc2

/-- The subject-identity scan over all rows, threading the
`(surname, name)` accumulators initialised to `("", "")`. -/
def scanNamesFrom : Table → String × String → String × String
  | [], acc => acc
  | row :: rest, acc => scanNamesFrom rest (scanCells row acc)

/-- The surname and name `process_file` extracts. -/
def scanNames (rows : Table) : String × String :=
  scanNamesFrom rows ("", "")

/-- Claim-side helper: the value the claim predicts for a label found at
cell `i` of a row — the stripped nonempty text of cell `i + 1`, or `""`
when that cell (or its text) is absent or empty. -/
def followVal (row : Row) (i : Nat) : String :=
  match row.get? (i + 1) with
  | some (some s) => if s ≠ "" then pyStrip s else ""
  | _ => ""

/-- Claim-side helper: the positions (counting from `i`) of the cells of
a row whose stripped upper-cased text equals `lbl`. -/
def rowLabelIdx (lbl : String) : Row → Nat → List Nat
  | [], _ => []
  | c :: rest, i =>
    if pyUpper (pyStrip (c.getD "")) = lbl then i :: rowLabelIdx lbl rest (i + 1)
    else rowLabelIdx lbl rest (i + 1)

/-- Claim-side helper: the `(row, column)` positions, in row-major
order and with rows counted from `r`, of the cells of a table whose
stripped upper-cased text equals `lbl`. -/
def labelPositions (lbl : String) : Table → Nat → List (Nat × Nat)
  | [], _ => []
  | row :: rest, r =>
    (rowLabelIdx lbl row 0).map (fun i => (r, i)) ++ labelPositions lbl rest (r + 1)

/-- Claim-side helper for the literal reading of the marker-scan claim:
the row-major positions of cells whose text is exactly `lbl`, with no
stripping or case folding. -/
def exactLabelPositions (lbl : String) : Table → Nat → List (Nat × Nat)
  | [], _ => []
  | row :: rest, r =>
    ((List.range row.length).filter (fun i => row.getD i none = some lbl)).map
        (fun i => (r, i))
      ++ exactLabelPositions lbl rest (r + 1)

/-- Marker scan within one row (`process_file` lines 36-41): the index
of the first cell whose stripped upper-cased text is `MARKER`. -/
def findMarkerRow : Row → Nat → Option Nat
  | [], _ => none
  | c :: rest, i =>
    if pyUpper (pyStrip (c.getD "")) = "MARKER" then some i
    else findMarkerRow rest (i + 1)

/-- The marker-column scan (`process_file` lines 33-45): the first row
containing a `MARKER` cell decides, and within it the column index of
the first such cell is returned; `none` models the
`ValueError("Marker column not found.")` raised when no row matches
(the `ConfigurationError` of the design taxonomy). -/
def findMarker : Table → Option Nat
  | [] => none
  | row :: rest =>
    match findMarkerRow row 0 with
    | some i => some i
    | none => findMarker rest

/-- A boundary event: the dictionary
`{"row_index": idx, "time": time_val, "meter": meter_val}` the extractor
appends. -/
structure Boundary where
  row_index : Nat
  time : String
  meter : ℚ
deriving DecidableEq

/-- The parse applied to a marker cell after `START` has been seen:
`float(marker_text.replace(",", "."))`, `none` on failure. -/
def markerNum? (mt : String) : Option ℚ :=
  pyFloat? (commaToDot mt)

/-- The boundary-collection loop (`process_file` lines 49-74), scheme B:
`fs` is the `found_start` flag, `acc` the `boundaries` list, `idx` the
enumeration index of the next row. Rows shorter than the marker column
are skipped wholesale (`if marker_index < len(cells)`); before the start
a row is consumed only by a marker cell upper-casing to `START`
(appended with meter `0.0`); afterwards any nonempty marker text is
parsed and appended on success; the loop breaks as soon as seven
boundaries are held. -/
def collectGo (mi : Nat) : Table → Nat → Bool → List Boundary → List Boundary
  | [], _, _, acc => acc
  | row :: rest, idx, fs, acc =>
    if mi < row.length then
      let mt := cellText row mi
      let tv := timeVal mi row
      let st :=
        if fs = false then
          if pyUpper mt = "START" then (true, acc ++ [⟨idx, tv, 0⟩])
          else (false, acc)
        else
          if mt ≠ "" then
            match markerNum? mt with
            | some v => (true, acc ++ [⟨idx, tv, v⟩])
            | none => (true, acc)
          else (true, acc)
      if st.2.length = 7 then st.2
      else collectGo mi rest (idx + 1) st.1 st.2
    else
      collectGo mi rest (idx + 1) fs acc

/-- The boundary extraction of `process_file` (lines 49-76): the
collected list when it has the seven required events, otherwise `none`,
modelling `ValueError("Not enough boundaries found ...")` (the
`BoundaryError` of the design taxonomy). -/
def extractBoundaries (mi : Nat) (rows : Table) : Option (List Boundary) :=
  let bs := collectGo mi rows 0 false []
  if bs.length < 7 then none else some bs

/-- Claim-side helper: the first row (scanning from enumeration index
`idx`) whose marker cell case-insensitively equals `START`, together
with its index and the rows after it. -/
def findStart (mi : Nat) : Table → Nat → Option (Nat × Row × Table)
  | [], _ => none
  | row :: rest, idx =>
    if pyUpper (cellText row mi) = "START" then some (idx, row, rest)
    else findStart mi rest (idx + 1)

/-- Claim-side helper: one boundary per row whose nonempty marker cell
parses as a decimal number (comma accepted as decimal point), in row
order, skipping non-numeric text; rows are counted from `idx`. -/
def numericEvents (mi : Nat) : Table → Nat → List Boundary
  | [], _ => []
  | row :: rest, idx =>
    let mt := cellText row mi
    if mt ≠ "" then
      match markerNum? mt with
      | some v => ⟨idx, timeVal mi row, v⟩ :: numericEvents mi rest (idx + 1)
      | none => numericEvents mi rest (idx + 1)
    else numericEvents mi rest (idx + 1)

/-- Scheme B as the claim words it: a start boundary with distance `0`
at the first row whose marker cell case-insensitively equals `START`,
then the next six rows whose nonempty marker cells parse as decimal
numbers; fewer than seven events after exhausting the table is a
failure, and exactly seven is the unique success shape. -/
def schemeBSpec (mi : Nat) (rows : Table) : Option (List Boundary) :=
  match findStart mi rows 0 with
  | none => none
  | some (si, row, rest) =>
    let evs := (numericEvents mi rest (si + 1)).take 6
    if evs.length = 6 then some (⟨si, timeVal mi row, 0⟩ :: evs) else none

/-- The parsed numeric content of absolute-column `j` of a row in the
averaging loop (`process_file` lines 91-99): cell present with text,
stripped, commas to dots, `float` or `None`. A missing cell, missing
data, empty text, or parse failure all contribute nothing. -/
def cellValue (row : Row) (j : Nat) : Option ℚ :=
  ((row.get? j).bind id).bind (fun s => pyFloat? (commaToDot (pyStrip s)))

/-- The inclusive row range of an interval:
`range(start_idx, end_idx + 1)`. -/
def intervalRange (s e : Nat) : List Nat :=
  List.range' s (e + 1 - s)

/-- The `(sum_metrics, count_metrics)` accumulation for one channel
column over a list of row indices: each parsed value adds to the sum
and bumps the count, anything else is skipped. -/
def sumCount (rows : Table) (rs : List Nat) (j : Nat) : ℚ × Nat :=
  rs.foldl
    (fun sc r =>
      match cellValue (rows.getD r []) j with
      | some v => (sc.1 + v, sc.2 + 1)
      | none => sc)
    (0, 0)

/-- The per-interval, per-channel average
(`sum_metrics[k] / count_metrics[k] if count_metrics[k] > 0 else None`)
over the inclusive row range `[s, e]` at absolute column `j`. -/
def intervalAvg (rows : Table) (j s e : Nat) : Option ℚ :=
  let sc := sumCount rows (intervalRange s e) j
  if 0 < sc.2 then some (sc.1 / (sc.2 : ℚ)) else none

/-- The default boundary used only to spell list indexing totally;
every access is within the seven extracted boundaries. -/
def b0 : Boundary := ⟨0, "", 0⟩

/-- `per_minute_avgs` (`process_file` lines 81-106): for each of the six
intervals, the averages of the 17 channels at columns
`marker_index + 1 + k`, over the rows from `boundaries[i].row_index` to
`boundaries[i+1].row_index` inclusive. -/
def perMinuteAvgs (rows : Table) (mi : Nat) (bs : List Boundary) :
    List (List (Option ℚ)) :=
  (List.range 6).map fun i =>
    (List.range 17).map fun k =>
      intervalAvg rows (mi + 1 + k) (bs.getD i b0).row_index
        (bs.getD (i + 1) b0).row_index

/-- `avg_list` (`process_file` lines 123-125): the mean of the non-null
entries, `None` when every entry is null. -/
def avgOpt (vals : List (Option ℚ)) : Option ℚ :=
  let valid := vals.filterMap id
  if valid ≠ [] then some (valid.sum / (valid.length : ℚ)) else none

/-- The six summary aggregates of one channel. -/
structure Aggregates where
  third1 : Option ℚ
  third2 : Option ℚ
  third3 : Option ℚ
  half1 : Option ℚ
  half2 : Option ℚ
  total : Option ℚ
deriving DecidableEq

/-- The aggregate construction (`process_file` lines 126-132) from the
six interval averages `vals`: `third1 = avg_list(vals[0:2])`,
`third2 = avg_list(vals[2:4])`, `third3 = avg_list(vals[4:6])`,
`half1 = avg_list(vals[0:3])`, `half2 = avg_list(vals[3:6])`,
`total = avg_list(vals)`. -/
def buildAggregates (vals : List (Option ℚ)) : Aggregates :=
  ⟨avgOpt (vals.take 2), avgOpt ((vals.drop 2).take 2),
    avgOpt ((vals.drop 4).take 2), avgOpt (vals.take 3),
    avgOpt ((vals.drop 3).take 3), avgOpt vals⟩

/-- The aggregates of channel `k` (its offset in `var_names`):
`vals = [per_minute_avgs[m][idx] for m in range(6)]` fed to the slice
averages. -/
def channelAggregates (pm : List (List (Option ℚ))) (k : Nat) : Aggregates :=
  buildAggregates ((List.range 6).map fun m => (pm.getD m []).getD k none)

/-- A decline index (`main` lines 227-229):
`(d6 - dX) / dX * 100 if dX not in (None, 0) else None`; in the
seven-boundary branch every per-minute distance is a number, so the
remaining guard is `dX != 0`. The division is never performed when the
guard fails, so no arithmetic error can arise. -/
def declineIndex (d6 dX : ℚ) : Option ℚ :=
  if dX ≠ 0 then some ((d6 - dX) / dX * 100) else none

/-- The distance/speed block of one subject row (`main` lines 212-229),
keeping the variable names of the source. -/
structure Kin where
  SixMWT_m_1 : ℚ
  SixMWT_m_2 : ℚ
  SixMWT_m_3 : ℚ
  SixMWT_m_4 : ℚ
  SixMWT_m_5 : ℚ
  SixMWT_m_6 : ℚ
  SixMWT_m_first2 : ℚ
  SixMWT_m_second2 : ℚ
  SixMWT_m_third2 : ℚ
  SixMWT_m_first3 : ℚ
  SixMWT_m_last3 : ℚ
  SixMWT_m_tot : ℚ
  SixMWT_km_h_tot : ℚ
  TwoMWT_m_tot : ℚ
  TwoMWT_km_h_tot : ℚ
  DWI_6_2 : Option ℚ
  DWI_6_3 : Option ℚ
  DWI_6_1 : Option ℚ
deriving DecidableEq

/-- The kinematics computation of `main` (lines 208-235): the
seven-distance unpacking `m0, ..., m6 = m` and the formulas of lines
212-229; any other length takes the `else` branch in which every
kinematic value is `None`, modelled as `none` for the whole block. -/
def computeKin (m : List ℚ) : Option Kin :=
  match m with
  | [m0, m1, m2, m3, m4, m5, m6] =>
    some ⟨m1 - m0, m2 - m1, m3 - m2, m4 - m3, m5 - m4, m6 - m5,
      m2 - m0, m4 - m2, m6 - m4,
      m3 - m0, m6 - m3, m6 - m0,
      (m6 - m0) / 100, m2 - m0, (m2 - m0) * 30 / 1000,
      declineIndex (m6 - m5) (m2 - m1),
      declineIndex (m6 - m5) (m3 - m2),
      declineIndex (m6 - m5) (m1 - m0)⟩
  | _ => none

/-- The derived flow-to-uptake value of one aggregate bucket (`main`
lines 287-293): `v_e / v_o2 if v_o2 not in (None, 0) else None`, with
the `try/except` catching the `None` numerator; so `none` whenever the
denominator aggregate is `none` or `0` or the numerator aggregate is
`none`. -/
def ratioAgg (ve vo2 : Option ℚ) : Option ℚ :=
  match vo2 with
  | none => none
  | some b =>
    if b ≠ 0 then
      match ve with
      | some a => some (a / b)
      | none => none
    else none

/-- Spec-contrast definition (the policy the claim rules out): the
null-excluding average of the six per-interval ratios, instead of the
ratio of the two aggregates. -/
def avgOfIntervalRatios (ves vo2s : List (Option ℚ)) : Option ℚ :=
  avgOpt (List.zipWith ratioAgg ves vo2s)

/-- The six aggregate buckets in the order of the `groups` table of
`main` (lines 186-193): `First3 = half1`, `Last3 = half2`,
`Tot = total`, `First2 = third1`, `Second2 = third2`,
`Last2 = third3`. -/
def groupKeys : List (Aggregates → Option ℚ) :=
  [fun a => a.half1, fun a => a.half2, fun a => a.total,
    fun a => a.third1, fun a => a.third2, fun a => a.third3]

/-- The channel order of the output row (`order`, `main` lines
283-284) as offsets into `var_names`; `none` marks the derived
flow-to-uptake channel inserted between offsets 12 and 13. -/
def orderIdx : List (Option Nat) :=
  [some 0, some 1, some 2, some 3, some 4, some 5, some 6, some 7,
    some 8, some 9, some 10, some 11, some 12, none, some 13, some 14,
    some 15, some 16]

/-- The physiological section of the output row of one subject (`main`
lines 285-296): for each bucket, the 18 channels in `order`; a plain
channel contributes its stored aggregate, the derived channel the
ratio of the flow aggregate (offset 2) to the uptake aggregate
(offset 0). -/
def physRow (pm : List (List (Option ℚ))) : List (Option ℚ) :=
  groupKeys.flatMap fun sel =>
    orderIdx.map fun o =>
      match o with
      | some k => sel (channelAggregates pm k)
      | none => ratioAgg (sel (channelAggregates pm 2)) (sel (channelAggregates pm 0))

/-- The immutable record `process_file` returns (`subject_data`,
lines 135-141); the per-channel dictionaries are derived data of
`perMinute` via `channelAggregates`. -/
structure Subject where
  surname : String
  name : String
  times : List String
  meters : List ℚ
  perMinute : List (List (Option ℚ))
deriving DecidableEq

/-- `process_file` end to end: identity scan, marker scan (its failure
aborts this file with the marker message), boundary extraction (its
failure aborts with the boundary message), per-minute averaging. -/
def processFile (rows : Table) : Except String Subject :=
  let sn := scanNames rows
  match findMarker rows with
  | none => .error "Marker column not found."
  | some mi =>
    match extractBoundaries mi rows with
    | none =>
      .error "Not enough boundaries found (expected START plus six numeric markers)."
    | some bs =>
      .ok ⟨sn.1, sn.2, bs.map (fun b => b.time), bs.map (fun b => b.meter),
        perMinuteAvgs rows mi bs⟩

/-- The batch loop of `main` (lines 150-157): each named file is
processed independently; a success is appended to the subject list, a
failure is recorded against the name of the file with its error message,
and the loop always continues with the remaining files. -/
def runBatch : List (String × Table) → List Subject × List (String × String)
  | [] => ([], [])
  | f :: rest =>
    let r := runBatch rest
    match processFile f.2 with
    | .ok s => (s :: r.1, r.2)
    | .error e => (r.1, (f.1, e) :: r.2)

/-- A well-formed export: marker column 2, `START` at row 1, six
numeric markers at rows 2-7, one populated channel column. -/
def T0 : Table :=
  [[none, none, some "MARKER"],
    [some "09:00", none, some "START"],
    [some "09:01", none, some "100", some "1"],
    [some "09:02", none, some "250", some "2"],
    [some "09:03", none, some "400", some "x"],
    [some "09:04", none, some "600", some "3"],
    [some "09:05", none, some "800"],
    [some "09:06", none, some "900"]]

/-- The boundary list the extractor finds in `T0`. -/
def bsT0 : List Boundary :=
  [⟨1, "09:00", 0⟩, ⟨2, "09:01", 100⟩, ⟨3, "09:02", 250⟩,
    ⟨4, "09:03", 400⟩, ⟨5, "09:04", 600⟩, ⟨6, "09:05", 800⟩,
    ⟨7, "09:06", 900⟩]

/-- A malformed export: no marker column at all. -/
def Tbad : Table := [[some "x"]]

/-- A four-row column holding `1`, `2`, unparseable text, `3`: the
worked interval-average example. -/
def TAvg : Table := [[some "1"], [some "2"], [some "x"], [some "3"]]

/-- A table with one surname label and one name label. -/
def W9 : Table :=
  [[some "COGNOME", some " Rossi "], [some "NOME", some "Mario"]]

/-- An empty channel row of the per-minute grid. -/
def pmNone : List (Option ℚ) := List.replicate 17 none

/-- A per-minute grid where the uptake channel (offset 0) averages `1`
then `2` and the flow channel (offset 2) averages `10` then `30`, the
other intervals being empty: the aggregate-then-divide example. -/
def pmEx : List (List (Option ℚ)) :=
  [(some 1) :: none :: (some 10) :: List.replicate 14 none,
    (some 2) :: none :: (some 30) :: List.replicate 14 none,
    pmNone, pmNone, pmNone, pmNone]

/-- Claim C4: the aggregates of interval averages `v0..v5` are the
null-excluding means `third1 = mean(v0,v1)`, `third2 = mean(v2,v3)`,
`third3 = mean(v4,v5)`, `half1 = mean(v0,v1,v2)`,
`half2 = mean(v3,v4,v5)`, `total = mean(v0..v5)`; an all-null mean is
null; and `[10,20,30,40,50,60]` yields `third1 = 15`, `third2 = 35`,
`third3 = 55`, `half1 = 20`, `half2 = 50`, `total = 35`. -/
theorem buildAggregates_means :
    (∀ v0 v1 v2 v3 v4 v5 : Option ℚ,
      buildAggregates [v0, v1, v2, v3, v4, v5] =
        ⟨avgOpt [v0, v1], avgOpt [v2, v3], avgOpt [v4, v5],
          avgOpt [v0, v1, v2], avgOpt [v3, v4, v5],
          avgOpt [v0, v1, v2, v3, v4, v5]⟩)
    ∧ (∀ n, avgOpt (List.replicate n (none : Option ℚ)) = none)
    ∧ buildAggregates
        [some 10, some 20, some 30, some 40, some 50, some 60] =
        ⟨some 15, some 35, some 55, some 20, some 50, some 35⟩ := by
  refine ⟨fun v0 v1 v2 v3 v4 v5 => rfl, fun n => ?_, by with_unfolding_all decide⟩
  have h : (List.replicate n (none : Option ℚ)).filterMap id = [] := by
    induction n with
    | zero => rfl
    | succ k ih => simp [List.replicate_succ, ih]
  simp [avgOpt, h]

/-- Claim C5: with `m0 = 0`, the kinematics of the seven distances are
the per-minute differences, the paired and tripled differences, the
total `m6 - m0`, total speed `(m6 - m0) / 100`, two-minute distance
`m2 - m0` and two-minute speed `(m2 - m0) * 30 / 1000`; on
`[0,100,250,400,600,800,900]` the totals are `900`, `9` km/h, `250`,
`7.5` km/h and the per-minute distances `[100,150,150,200,200,100]`;
any distance list without exactly seven entries yields no kinematics
(every value `None`). -/
theorem computeKin_formulas (m0 m1 m2 m3 m4 m5 m6 : ℚ) (_h : m0 = 0) :
    computeKin [m0, m1, m2, m3, m4, m5, m6] =
      some ⟨m1 - m0, m2 - m1, m3 - m2, m4 - m3, m5 - m4, m6 - m5,
        m2 - m0, m4 - m2, m6 - m4, m3 - m0, m6 - m3, m6 - m0,
        (m6 - m0) / 100, m2 - m0, (m2 - m0) * 30 / 1000,
        declineIndex (m6 - m5) (m2 - m1), declineIndex (m6 - m5) (m3 - m2),
        declineIndex (m6 - m5) (m1 - m0)⟩
    ∧ (∃ k, computeKin [0, 100, 250, 400, 600, 800, 900] = some k
        ∧ k.SixMWT_m_tot = 900 ∧ k.SixMWT_km_h_tot = 9
        ∧ k.TwoMWT_m_tot = 250 ∧ k.TwoMWT_km_h_tot = 15 / 2
        ∧ [k.SixMWT_m_1, k.SixMWT_m_2, k.SixMWT_m_3, k.SixMWT_m_4,
            k.SixMWT_m_5, k.SixMWT_m_6] = [100, 150, 150, 200, 200, 100])
    ∧ (∀ l : List ℚ, l.length ≠ 7 → computeKin l = none) := by
  refine ⟨rfl, ⟨_, rfl, ?_, ?_, ?_, ?_, ?_⟩, ?_⟩
  · with_unfolding_all decide
  · with_unfolding_all decide
  · with_unfolding_all decide
  · with_unfolding_all decide
  · with_unfolding_all decide
  · intro l hl
    match l, hl with
    | [], _ => rfl
    | [_], _ => rfl
    | [_, _], _ => rfl
    | [_, _, _], _ => rfl
    | [_, _, _, _], _ => rfl
    | [_, _, _, _, _], _ => rfl
    | [_, _, _, _, _, _], _ => rfl
    | [_, _, _, _, _, _, _], hl => exact absurd rfl hl
    | _ :: _ :: _ :: _ :: _ :: _ :: _ :: _ :: _, _ => rfl

/-- Witness for `computeKin_formulas` at the worked distances. -/
theorem computeKin_formulas_witness :
    (0 : ℚ) = 0
    ∧ (∃ k, computeKin [0, 100, 250, 400, 600, 800, 900] = some k
        ∧ k.SixMWT_m_tot = 900 ∧ k.SixMWT_km_h_tot = 9
        ∧ k.TwoMWT_m_tot = 250 ∧ k.TwoMWT_km_h_tot = 15 / 2
        ∧ [k.SixMWT_m_1, k.SixMWT_m_2, k.SixMWT_m_3, k.SixMWT_m_4,
            k.SixMWT_m_5, k.SixMWT_m_6] = [100, 150, 150, 200, 200, 100]) :=
  ⟨rfl, (computeKin_formulas 0 100 250 400 600 800 900 rfl).2.1⟩

/-- Claim C6: each decline index is `(d6 - dX) / dX * 100`, is `None`
whenever its reference distance is `0` (the null reference case being
the all-`None` branch in which no kinematics are computed at all), and
is produced without ever dividing at a zero denominator; `d1 = d6 = 100`
gives index `0` and `d1 = 0` gives `None`. -/
theorem declineIndex_guarded :
    (∀ d6 dX : ℚ, dX = 0 → declineIndex d6 dX = none)
    ∧ (∀ d6 dX : ℚ, dX ≠ 0 → declineIndex d6 dX = some ((d6 - dX) / dX * 100))
    ∧ declineIndex 100 100 = some 0
    ∧ (∀ d6 : ℚ, declineIndex d6 0 = none)
    ∧ (∀ m0 m1 m2 m3 m4 m5 m6 : ℚ,
        (computeKin [m0, m1, m2, m3, m4, m5, m6]).map
            (fun k => (k.DWI_6_2, k.DWI_6_3, k.DWI_6_1)) =
          some (declineIndex (m6 - m5) (m2 - m1),
            declineIndex (m6 - m5) (m3 - m2),
            declineIndex (m6 - m5) (m1 - m0))) := by
  refine ⟨fun d6 dX h => by simp [declineIndex, h], fun d6 dX h => by simp [declineIndex, h],
    by with_unfolding_all decide, fun d6 => by simp [declineIndex],
    fun m0 m1 m2 m3 m4 m5 m6 => rfl⟩

/-- Witness for `declineIndex_guarded`: both guard branches at concrete
reference distances. -/
theorem declineIndex_guarded_witness :
    ((0 : ℚ) = 0 ∧ declineIndex 100 0 = none)
    ∧ ((50 : ℚ) ≠ 0 ∧ declineIndex 100 50 = some ((100 - 50) / 50 * 100)) :=
  ⟨⟨rfl, declineIndex_guarded.1 100 0 rfl⟩,
    ⟨by norm_num, declineIndex_guarded.2.1 100 50 (by norm_num)⟩⟩

/-- Claim C7: in every aggregate bucket of the output row, the derived
flow-to-uptake channel (column offset 13 within each 18-column group)
is the ratio of the flow aggregate to the uptake aggregate — `none`
when the denominator aggregate is `none` or `0`, or the numerator
aggregate is `none` — and on a concrete grid it differs from the
average of the per-interval ratios, so it is not computed that way. -/
theorem physRow_derived_channel :
    (∀ ve : Option ℚ, ratioAgg ve none = none)
    ∧ (∀ ve : Option ℚ, ratioAgg ve (some 0) = none)
    ∧ (∀ b : ℚ, ratioAgg none (some b) = none)
    ∧ (∀ a b : ℚ, b ≠ 0 → ratioAgg (some a) (some b) = some (a / b))
    ∧ (∀ pm : List (List (Option ℚ)),
        (physRow pm).getD 13 none =
          ratioAgg ((channelAggregates pm 2).half1) ((channelAggregates pm 0).half1)
        ∧ (physRow pm).getD 31 none =
          ratioAgg ((channelAggregates pm 2).half2) ((channelAggregates pm 0).half2)
        ∧ (physRow pm).getD 49 none =
          ratioAgg ((channelAggregates pm 2).total) ((channelAggregates pm 0).total)
        ∧ (physRow pm).getD 67 none =
          ratioAgg ((channelAggregates pm 2).third1) ((channelAggregates pm 0).third1)
        ∧ (physRow pm).getD 85 none =
          ratioAgg ((channelAggregates pm 2).third2) ((channelAggregates pm 0).third2)
        ∧ (physRow pm).getD 103 none =
          ratioAgg ((channelAggregates pm 2).third3) ((channelAggregates pm 0).third3))
    ∧ ((physRow pmEx).getD 49 none = some (40 / 3)
        ∧ avgOfIntervalRatios
            ((List.range 6).map fun m => (pmEx.getD m []).getD 2 none)
            ((List.range 6).map fun m => (pmEx.getD m []).getD 0 none) =
          some (25 / 2)
        ∧ (some ((40 : ℚ) / 3) ≠ some ((25 : ℚ) / 2))) := by
  refine ⟨fun ve => by cases ve <;> rfl, fun ve => by simp [ratioAgg],
    fun b => ?_, fun a b h => by simp [ratioAgg, h],
    fun pm => ⟨rfl, rfl, rfl, rfl, rfl, rfl⟩,
    by with_unfolding_all decide, by with_unfolding_all decide,
    by with_unfolding_all decide⟩
  by_cases h : b = 0 <;> simp [ratioAgg, h]

/-- Witness for `physRow_derived_channel`: the nonzero-denominator
branch at concrete aggregates. -/
theorem physRow_derived_channel_witness :
    (4 : ℚ) ≠ 0 ∧ ratioAgg (some 10) (some 4) = some (10 / 4) :=
  ⟨by norm_num, physRow_derived_channel.2.2.2.1 10 4 (by norm_num)⟩

/-- Claim C10: the batch loop isolates failures per file — the subject
list is exactly the successfully processed files, in submission order,
and every failed file is reported, in order, by its own name with its
error message; in a three-file batch whose middle file is malformed,
files 1 and 3 still produce their records and file 2 is reported
without aborting the batch. -/
theorem runBatch_isolates :
    (∀ files : List (String × Table),
      (runBatch files).1 = files.filterMap (fun f => (processFile f.2).toOption))
    ∧ (∀ files : List (String × Table),
      (runBatch files).2 = files.filterMap
        (fun f => match processFile f.2 with
          | .error e => some (f.1, e)
          | .ok _ => none))
    ∧ ((runBatch [("a", T0), ("b", Tbad), ("c", T0)]).1.map
          (fun s => s.meters) =
        [[0, 100, 250, 400, 600, 800, 900], [0, 100, 250, 400, 600, 800, 900]]
        ∧ (runBatch [("a", T0), ("b", Tbad), ("c", T0)]).2 =
          [("b", "Marker column not found.")]) := by
  refine ⟨fun files => ?_, fun files => ?_,
    by with_unfolding_all decide, by with_unfolding_all decide⟩
  · induction files with
    | nil => rfl
    | cons f rest ih =>
      simp only [runBatch, List.filterMap_cons]
      cases h : processFile f.2 <;> simp [h, ih, Except.toOption]
  · induction files with
    | nil => rfl
    | cons f rest ih =>
      simp only [runBatch, List.filterMap_cons]
      cases h : processFile f.2 <;> simp [h, ih]

/-- The sum/count fold for one channel column equals the sum and length
of the successfully parsed values. -/
theorem sumCount_eq (rows : Table) (j : Nat) (rs : List Nat) :
    sumCount rows rs j =
      ((rs.filterMap (fun r => cellValue (rows.getD r []) j)).sum,
        (rs.filterMap (fun r => cellValue (rows.getD r []) j)).length) := by
  suffices h : ∀ (l : List Nat) (a : ℚ) (c : Nat),
      l.foldl
          (fun sc r =>
            match cellValue (rows.getD r []) j with
            | some v => (sc.1 + v, sc.2 + 1)
            | none => sc)
          (a, c) =
        (a + (l.filterMap (fun r => cellValue (rows.getD r []) j)).sum,
          c + (l.filterMap (fun r => cellValue (rows.getD r []) j)).length) by
    simpa [sumCount] using h rs 0 0
  intro l
  induction l with
  | nil => intro a c; simp
  | cons r rest ih =>
    intro a c
    cases h : cellValue (rows.getD r []) j with
    | none =>
      rw [List.foldl_cons, List.filterMap_cons, h]
      exact ih a c
    | some v =>
      rw [List.foldl_cons, List.filterMap_cons, h]
      refine ((ih (a + v) (c + 1)).trans ?_)
      refine Prod.ext ?_ ?_
      · simp [add_assoc]
      · simp [Nat.add_assoc, Nat.add_comm 1]

/-- Helper: indexing a mapped range below its bound evaluates the
function. -/
theorem getD_map_range {α : Type _} (n k : Nat) (f : Nat → α) (d : α)
    (hk : k < n) : ((List.range n).map f).getD k d = f k := by
  rw [List.getD_eq_getElem?_getD, List.getElem?_map, List.getElem?_range hk]
  rfl

/-- Claim C3: an interval/channel average is the arithmetic mean of
exactly the cells of the row range of the interval (at the absolute
column of the channel) that parse after comma normalisation — unparseable and
empty cells enter neither sum nor divisor, an interval with no parsed
value is `None` — the per-minute grid entry `(i, k)` is that average at
column `marker_index + 1 + k`, and the column `[1, 2, unparseable, 3]`
averages to `2`. -/
theorem intervalAvg_mean :
    (∀ (rows : Table) (j s e : Nat),
      ((intervalRange s e).filterMap (fun r => cellValue (rows.getD r []) j) = [] →
        intervalAvg rows j s e = none)
      ∧ ∀ vals,
          vals = (intervalRange s e).filterMap (fun r => cellValue (rows.getD r []) j) →
          vals ≠ [] →
          intervalAvg rows j s e = some (vals.sum / (vals.length : ℚ)))
    ∧ (∀ (rows : Table) (mi : Nat) (bs : List Boundary) (i k : Nat),
        i < 6 → k < 17 →
        ((perMinuteAvgs rows mi bs).getD i []).getD k none =
          intervalAvg rows (mi + 1 + k) (bs.getD i b0).row_index
            (bs.getD (i + 1) b0).row_index)
    ∧ intervalAvg TAvg 0 0 3 = some 2 := by
  have havg : ∀ (rows : Table) (j s e : Nat),
      intervalAvg rows j s e =
        if 0 < (sumCount rows (intervalRange s e) j).2 then
          some ((sumCount rows (intervalRange s e) j).1 /
            ((sumCount rows (intervalRange s e) j).2 : ℚ))
        else none := fun rows j s e => rfl
  refine ⟨fun rows j s e => ⟨fun h => ?_, fun vals hv hne => ?_⟩,
    fun rows mi bs i k hi hk => ?_, by with_unfolding_all decide⟩
  · rw [havg, sumCount_eq, h]
    simp
  · have hp : 0 < vals.length := List.length_pos.mpr hne
    rw [havg, sumCount_eq, ← hv]
    simp [hp]
  · unfold perMinuteAvgs
    rw [getD_map_range 6 i _ _ hi, getD_map_range 17 k _ _ hk]

/-- Witness for `intervalAvg_mean`: a column with no parseable value
averages to `None`, and grid entry `(0, 0)` of the worked table is the
interval average at column 3. -/
theorem intervalAvg_mean_witness :
    ((intervalRange 0 3).filterMap (fun r => cellValue (TAvg.getD r []) 5) = []
      ∧ intervalAvg TAvg 5 0 3 = none)
    ∧ ((perMinuteAvgs T0 2 bsT0).getD 0 []).getD 0 none =
      intervalAvg T0 3 (bsT0.getD 0 b0).row_index (bsT0.getD 1 b0).row_index :=
  ⟨⟨by with_unfolding_all decide,
      (intervalAvg_mean.1 TAvg 5 0 3).1 (by with_unfolding_all decide)⟩,
    intervalAvg_mean.2.1 T0 2 bsT0 0 0 (by decide) (by decide)⟩

/-- Within one row, the marker scan returns the first position whose
cell matches the marker token after stripping and upper-casing. -/
theorem findMarkerRow_eq (row : Row) :
    ∀ i, findMarkerRow row i = (rowLabelIdx "MARKER" row i).head? := by
  induction row with
  | nil => intro i; rfl
  | cons c rest ih =>
    intro i
    by_cases h : pyUpper (pyStrip (c.getD "")) = "MARKER"
    · simp [findMarkerRow, rowLabelIdx, h]
    · simp [findMarkerRow, rowLabelIdx, h, ih]

/-- Every position the label scan reports lies in a row at or after the
starting row counter. -/
theorem labelPositions_ge (lbl : String) :
    ∀ (rows : Table) (r : Nat) (p : Nat × Nat),
      p ∈ labelPositions lbl rows r → r ≤ p.1 := by
  intro rows
  induction rows with
  | nil => intro r p hp; simp [labelPositions] at hp
  | cons row rest ih =>
    intro r p hp
    rw [labelPositions, List.mem_append] at hp
    rcases hp with hp | hp
    · rcases List.mem_map.mp hp with ⟨i, _, rfl⟩
      exact Nat.le_refl r
    · exact Nat.le_of_succ_le (ih (r + 1) p hp)

/-- Counterexample to the literal reading of the marker-scan claim: the
table `[["marker"]]` holds no cell exactly equal to `"MARKER"`, so the
claimed scan would fail with the configuration error, yet the scanner
accepts it and returns column 0 (it compares after `strip().upper()`). -/
theorem findMarker_not_exact :
    findMarker [[some "marker"]] = some 0
    ∧ exactLabelPositions "MARKER" [[some "marker"]] 0 = [] := by
  exact ⟨by decide, by decide⟩

/-- Claim C8 (amended): the scanner returns the column index of the
first cell in row-major order whose stripped upper-cased text equals
the marker token `MARKER`, and yields the configuration error — which
aborts only that file — exactly when no such cell exists anywhere. -/
theorem findMarker_first_match :
    (∀ rows : Table,
      findMarker rows = (labelPositions "MARKER" rows 0).head?.map Prod.snd)
    ∧ (∀ rows : Table,
      findMarker rows = none ↔ labelPositions "MARKER" rows 0 = [])
    ∧ (∀ rows : Table, findMarker rows = none →
      processFile rows = .error "Marker column not found.") := by
  have key : ∀ (rows : Table) (r : Nat),
      findMarker rows = (labelPositions "MARKER" rows r).head?.map Prod.snd := by
    intro rows
    induction rows with
    | nil => intro r; rfl
    | cons row rest ih =>
      intro r
      rw [findMarker, findMarkerRow_eq, labelPositions]
      cases h : rowLabelIdx "MARKER" row 0 with
      | nil => simp [h, ih (r + 1)]
      | cons i t => simp [h]
  refine ⟨fun rows => key rows 0, fun rows => ?_, fun rows h => ?_⟩
  · rw [key rows 0]
    constructor
    · intro h
      rcases hl : labelPositions "MARKER" rows 0 with _ | ⟨p, t⟩
      · rfl
      · rw [hl] at h; simp at h
    · intro h; rw [h]; rfl
  · rw [processFile, h]

/-- Witness for `findMarker_first_match`: a table with no marker cell
is rejected with the configuration error. -/
theorem findMarker_first_match_witness :
    findMarker Tbad = none
    ∧ processFile Tbad = .error "Marker column not found." :=
  ⟨by decide, findMarker_first_match.2.2 Tbad (by decide)⟩

/-- A row shorter than the marker column has an empty marker cell. -/
theorem cellText_short (row : Row) (mi : Nat) (h : row.length ≤ mi) :
    cellText row mi = "" := by
  rw [cellText, List.get?_eq_none.mpr h]
  rfl

/-- Before the start event, the collection loop does nothing but look
for the first row whose marker cell upper-cases to `START`, and then
continues after it with the start boundary collected. -/
theorem collect_phase1 (mi : Nat) :
    ∀ (l : Table) (idx : Nat),
      collectGo mi l idx false [] =
        match findStart mi l idx with
        | none => []
        | some (si, row, rest) =>
          collectGo mi rest (si + 1) true [⟨si, timeVal mi row, 0⟩] := by
  intro l
  induction l with
  | nil => intro idx; rfl
  | cons row rest ih =>
    intro idx
    by_cases hmi : mi < row.length
    · by_cases hs : pyUpper (cellText row mi) = "START"
      · rw [collectGo, findStart]
        simp [hmi, hs]
      · rw [collectGo, findStart]
        simp [hmi, hs, ih (idx + 1)]
    · have hct : cellText row mi = "" := cellText_short row mi (Nat.le_of_not_lt hmi)
      have hdiff : pyUpper "" ≠ "START" := by decide
      rw [collectGo, findStart]
      simp [hmi, hct, hdiff, ih (idx + 1)]

/-- After the start event, the collection loop appends exactly the
numeric-marker events in row order, stopping at the seventh boundary
overall. -/
theorem collect_phase2 (mi : Nat) :
    ∀ (l : Table) (idx : Nat) (acc : List Boundary), acc.length < 7 →
      collectGo mi l idx true acc =
        acc ++ (numericEvents mi l idx).take (7 - acc.length) := by
  intro l
  induction l with
  | nil => intro idx acc _; simp [collectGo, numericEvents]
  | cons row rest ih =>
    intro idx acc hacc
    have hne : acc.length ≠ 7 := Nat.ne_of_lt hacc
    by_cases hmi : mi < row.length
    · by_cases hmt : cellText row mi = ""
      · rw [collectGo, numericEvents]
        simp [hmi, hmt, hne, ih (idx + 1) acc hacc]
      · cases hp : markerNum? (cellText row mi) with
        | none =>
          rw [collectGo, numericEvents]
          simp [hmi, hmt, hp, hne, ih (idx + 1) acc hacc]
        | some v =>
          rw [collectGo, numericEvents]
          by_cases h7 : (acc ++ [(⟨idx, timeVal mi row, v⟩ : Boundary)]).length = 7
          · have h6 : acc.length = 6 := by simp at h7; omega
            have htake : 7 - acc.length = 1 := by omega
            simp [hmi, hmt, hp, h7, htake, h6]
          · have hlt : (acc ++ [(⟨idx, timeVal mi row, v⟩ : Boundary)]).length < 7 := by
              simp at h7 ⊢; omega
            have hsplit : 7 - acc.length = (7 - (acc.length + 1)) + 1 := by omega
            have hrec := ih (idx + 1) (acc ++ [(⟨idx, timeVal mi row, v⟩ : Boundary)]) hlt
            simp only [List.length_append, List.length_cons, List.length_nil] at h7
            simp [hmi, hmt, hp, h7, hrec, hsplit, List.take_succ_cons,
              List.append_assoc]
    · have hct : cellText row mi = "" := cellText_short row mi (Nat.le_of_not_lt hmi)
      rw [collectGo, numericEvents]
      simp [hmi, hct, ih (idx + 1) acc hacc]

/-- The boundary extractor coincides with its claim-side description:
start event at the first `START` row, then the next six numeric-marker
events, failing on fewer than seven. -/
theorem extract_eq_spec (mi : Nat) (rows : Table) :
    extractBoundaries mi rows = schemeBSpec mi rows := by
  have hdef : extractBoundaries mi rows =
      (if (collectGo mi rows 0 false []).length < 7 then none
        else some (collectGo mi rows 0 false [])) := rfl
  cases hfs : findStart mi rows 0 with
  | none =>
    have hc : collectGo mi rows 0 false [] = [] := by
      rw [collect_phase1, hfs]
    rw [hdef, hc]
    simp only [schemeBSpec, hfs]
    simp
  | some t =>
    obtain ⟨si, row, rest⟩ := t
    have hc : collectGo mi rows 0 false [] =
        [(⟨si, timeVal mi row, 0⟩ : Boundary)] ++
          (numericEvents mi rest (si + 1)).take 6 := by
      rw [collect_phase1, hfs]
      exact collect_phase2 mi rest (si + 1) [⟨si, timeVal mi row, 0⟩] (by simp)
    rw [hdef, hc]
    simp only [schemeBSpec, hfs]
    split
    · next h1 =>
      split
      · next h2 => simp [List.length_take] at h1 h2; omega
      · rfl
    · next h1 =>
      split
      · next h2 => rfl
      · next h2 => simp [List.length_take] at h1 h2; omega

/-- Every numeric-marker event found while scanning from row counter
`idx` lies at a row index at least `idx`. -/
theorem numericEvents_ge (mi : Nat) :
    ∀ (l : Table) (idx : Nat) (b : Boundary),
      b ∈ numericEvents mi l idx → idx ≤ b.row_index := by
  intro l
  induction l with
  | nil => intro idx b hb; simp [numericEvents] at hb
  | cons row rest ih =>
    intro idx b hb
    simp only [numericEvents] at hb
    by_cases hmt : cellText row mi = ""
    · rw [hmt] at hb
      simp at hb
      exact Nat.le_of_succ_le (ih (idx + 1) b hb)
    · rw [if_pos hmt] at hb
      cases hp : markerNum? (cellText row mi) with
      | none =>
        rw [hp] at hb
        exact Nat.le_of_succ_le (ih (idx + 1) b hb)
      | some v =>
        rw [hp] at hb
        have hb2 : b ∈ (⟨idx, timeVal mi row, v⟩ : Boundary) ::
            numericEvents mi rest (idx + 1) := hb
        rcases List.mem_cons.mp hb2 with rfl | hb3
        · exact Nat.le_refl idx
        · exact Nat.le_of_succ_le (ih (idx + 1) b hb3)

/-- The numeric-marker events carry strictly increasing row indices. -/
theorem numericEvents_pairwise (mi : Nat) :
    ∀ (l : Table) (idx : Nat),
      (numericEvents mi l idx).Pairwise
        (fun a b => a.row_index < b.row_index) := by
  intro l
  induction l with
  | nil => intro idx; simp [numericEvents]
  | cons row rest ih =>
    intro idx
    simp only [numericEvents]
    by_cases hmt : cellText row mi = ""
    · rw [hmt]
      simp [ih (idx + 1)]
    · rw [if_pos hmt]
      cases hp : markerNum? (cellText row mi) with
      | none =>
        exact ih (idx + 1)
      | some v =>
        show List.Pairwise _ ((⟨idx, timeVal mi row, v⟩ : Boundary) ::
          numericEvents mi rest (idx + 1))
        refine List.pairwise_cons.mpr ⟨fun b hb => ?_, ih (idx + 1)⟩
        exact Nat.lt_of_lt_of_le (Nat.lt_succ_self idx)
          (numericEvents_ge mi rest (idx + 1) b hb)

/-- A successful extraction yields exactly seven boundaries with
strictly increasing row indices. -/
theorem extract_sorted (mi : Nat) (rows : Table) (bs : List Boundary)
    (h : extractBoundaries mi rows = some bs) :
    bs.length = 7 ∧ (bs.map Boundary.row_index).Pairwise (· < ·)
      ∧ ∃ si row rest, findStart mi rows 0 = some (si, row, rest)
          ∧ bs = ⟨si, timeVal mi row, 0⟩ ::
              (numericEvents mi rest (si + 1)).take 6 := by
  rw [extract_eq_spec, schemeBSpec] at h
  cases hfs : findStart mi rows 0 with
  | none =>
    rw [hfs] at h
    exact Option.noConfusion h
  | some t =>
    obtain ⟨si, row, rest⟩ := t
    rw [hfs] at h
    have h2 : (if ((numericEvents mi rest (si + 1)).take 6).length = 6 then
        some ((⟨si, timeVal mi row, 0⟩ : Boundary) ::
          (numericEvents mi rest (si + 1)).take 6)
      else none) = some bs := h
    by_cases h6 : ((numericEvents mi rest (si + 1)).take 6).length = 6
    · rw [if_pos h6] at h2
      obtain rfl : (⟨si, timeVal mi row, 0⟩ : Boundary) ::
          (numericEvents mi rest (si + 1)).take 6 = bs := Option.some.inj h2
      refine ⟨by simp [h6], ?_, si, row, rest, rfl, rfl⟩
      rw [List.map_cons, List.pairwise_cons]
      constructor
      · intro a ha
        rcases List.mem_map.mp ha with ⟨b, hb, rfl⟩
        have hb2 : b ∈ numericEvents mi rest (si + 1) :=
          List.take_subset 6 _ hb
        exact Nat.lt_of_lt_of_le (Nat.lt_succ_self si)
          (numericEvents_ge mi rest (si + 1) b hb2)
      · exact List.pairwise_map.mpr
          ((numericEvents_pairwise mi rest (si + 1)).sublist
            (List.take_sublist 6 _))
    · rw [if_neg h6] at h2
      exact absurd h2 (by simp)

/-- Claim C1: the scheme-B extractor emits a distance-0 boundary at the
first row whose marker cell case-insensitively equals `START`, then one
boundary per subsequent row whose nonempty marker cell parses as a
decimal number (comma accepted), skipping non-numeric text and stopping
at seven; successful outputs have strictly increasing row indices and
length exactly seven, and fewer than seven collected events is the
boundary failure — the extractor equals this description on every
input. -/
theorem extract_matches_spec (mi : Nat) (rows : Table) :
    extractBoundaries mi rows = schemeBSpec mi rows
    ∧ ∀ bs, extractBoundaries mi rows = some bs →
        bs.length = 7
        ∧ (bs.map Boundary.row_index).Pairwise (· < ·)
        ∧ ∃ si row rest, findStart mi rows 0 = some (si, row, rest)
            ∧ bs.head? = some ⟨si, timeVal mi row, 0⟩ := by
  refine ⟨extract_eq_spec mi rows, fun bs h => ?_⟩
  obtain ⟨hlen, hpw, si, row, rest, hfs, hshape⟩ := extract_sorted mi rows bs h
  exact ⟨hlen, hpw, si, row, rest, hfs, by rw [hshape]; rfl⟩

/-- Witness for `extract_matches_spec`: the successful extraction on
the concrete table `T0`. -/
theorem extract_matches_spec_witness :
    extractBoundaries 2 T0 = some bsT0
    ∧ bsT0.length = 7
    ∧ (bsT0.map Boundary.row_index).Pairwise (· < ·)
    ∧ ∃ si row rest, findStart 2 T0 0 = some (si, row, rest)
        ∧ bsT0.head? = some ⟨si, timeVal 2 row, 0⟩ := by
  have h : extractBoundaries 2 T0 = some bsT0 := by with_unfolding_all decide
  exact ⟨h, (extract_matches_spec 2 T0).2 bsT0 h⟩

/-- Claim C2: after a successful extraction, interval `i` scans exactly
the rows from `boundaries[i].row_index` to `boundaries[i+1].row_index`,
inclusive on both ends; consequently each interior boundary row
(boundaries 1..5) belongs to the ranges of both neighbouring
intervals. -/
theorem intervalRange_inclusive (rows : Table) (mi : Nat) (bs : List Boundary)
    (h : extractBoundaries mi rows = some bs) :
    (∀ i, i < 6 → ∀ r : Nat,
      (r ∈ intervalRange (bs.getD i b0).row_index (bs.getD (i + 1) b0).row_index ↔
        ((bs.getD i b0).row_index ≤ r ∧ r ≤ (bs.getD (i + 1) b0).row_index)))
    ∧ (∀ i, 1 ≤ i → i ≤ 5 →
        (bs.getD i b0).row_index ∈
          intervalRange (bs.getD (i - 1) b0).row_index (bs.getD i b0).row_index
        ∧ (bs.getD i b0).row_index ∈
          intervalRange (bs.getD i b0).row_index (bs.getD (i + 1) b0).row_index) := by
  obtain ⟨hlen, hpw, -⟩ := extract_sorted mi rows bs h
  have hget : ∀ j (hj : j < 7), bs.getD j b0 = bs.get ⟨j, by omega⟩ := by
    intro j hj
    rw [List.getD_eq_getElem?_getD, List.getElem?_eq_getElem (by omega)]
    rfl
  have key : ∀ i, i < 6 →
      (bs.getD i b0).row_index < (bs.getD (i + 1) b0).row_index := by
    intro i hi
    have h1 := List.pairwise_iff_getElem.mp hpw i (i + 1)
      (by simp [hlen]; omega) (by simp [hlen]; omega) (Nat.lt_succ_self i)
    rw [List.getElem_map, List.getElem_map] at h1
    rw [hget i (by omega), hget (i + 1) (by omega)]
    exact h1
  have mem : ∀ i, i < 6 → ∀ r : Nat,
      (r ∈ intervalRange (bs.getD i b0).row_index (bs.getD (i + 1) b0).row_index ↔
        ((bs.getD i b0).row_index ≤ r ∧ r ≤ (bs.getD (i + 1) b0).row_index)) := by
    intro i hi r
    have hk := key i hi
    rw [intervalRange, List.mem_range'_1]
    omega
  refine ⟨mem, fun i h1 h5 => ?_⟩
  have hi1 : i - 1 < 6 := by omega
  have hstep : i - 1 + 1 = i := by omega
  have hklo := key (i - 1) hi1
  rw [hstep] at hklo
  constructor
  · rw [show intervalRange (bs.getD (i - 1) b0).row_index (bs.getD i b0).row_index
        = intervalRange (bs.getD (i - 1) b0).row_index
            (bs.getD ((i - 1) + 1) b0).row_index by rw [hstep]]
    exact (mem (i - 1) hi1 _).mpr (by rw [hstep]; omega)
  · exact (mem i (by omega) _).mpr ⟨Nat.le_refl _, Nat.le_of_lt (key i (by omega))⟩

/-- Witness for `intervalRange_inclusive` at the concrete table `T0`:
boundary 1 (row 2) is scanned by both interval 0 and interval 1. -/
theorem intervalRange_inclusive_witness :
    extractBoundaries 2 T0 = some bsT0
    ∧ (2 ∈ intervalRange (bsT0.getD 0 b0).row_index (bsT0.getD 1 b0).row_index ↔
        ((bsT0.getD 0 b0).row_index ≤ 2 ∧ 2 ≤ (bsT0.getD 1 b0).row_index))
    ∧ ((bsT0.getD 1 b0).row_index ∈
        intervalRange (bsT0.getD 0 b0).row_index (bsT0.getD 1 b0).row_index
      ∧ (bsT0.getD 1 b0).row_index ∈
        intervalRange (bsT0.getD 1 b0).row_index (bsT0.getD 2 b0).row_index) := by
  have h : extractBoundaries 2 T0 = some bsT0 := by with_unfolding_all decide
  exact ⟨h, (intervalRange_inclusive T0 2 bsT0 h).1 0 (by decide) 2,
    (intervalRange_inclusive T0 2 bsT0 h).2 1 (by decide) (by decide)⟩

/-- Label positions within a row never precede the starting column
counter. -/
theorem rowLabelIdx_ge (lbl : String) :
    ∀ (row : Row) (i j : Nat), j ∈ rowLabelIdx lbl row i → i ≤ j := by
  intro row
  induction row with
  | nil => intro i j hj; simp [rowLabelIdx] at hj
  | cons c rest ih =>
    intro i j hj
    rw [rowLabelIdx] at hj
    by_cases hc : pyUpper (pyStrip (c.getD "")) = lbl
    · rw [if_pos hc] at hj
      rcases List.mem_cons.mp hj with rfl | hj2
      · exact Nat.le_refl j
      · exact Nat.le_of_succ_le (ih (i + 1) j hj2)
    · rw [if_neg hc] at hj
      exact Nat.le_of_succ_le (ih (i + 1) j hj)

/-- Skipping past the second cell of a pair: the follower value of a
later position ignores the head cell. -/
theorem followVal_cons_ge (c : Option String) (rest : Row) (m : Nat)
    (h : 1 ≤ m) : followVal (c :: rest) m = followVal rest (m - 1) := by
  have h1 : (c :: rest).get? (m + 1) = rest.get? m := List.get?_cons_succ
  have h2 : m - 1 + 1 = m := by omega
  rw [followVal, followVal, h1, h2]

/-- A row without the surname label leaves the surname accumulator
unchanged. -/
theorem scanCells_fst_nil :
    ∀ (row : Row) (i : Nat) (acc : String × String),
      rowLabelIdx "COGNOME" row i = [] → (scanCells row acc).1 = acc.1 := by
  intro row
  induction row with
  | nil => intro i acc _; rfl
  | cons c rest ih =>
    intro i acc h
    rw [rowLabelIdx] at h
    by_cases hc : pyUpper (pyStrip (c.getD "")) = "COGNOME"
    · rw [if_pos hc] at h
      exact absurd h (by simp)
    · rw [if_neg hc] at h
      have hcond : ¬(pyUpper (pyStrip (c.getD "")) = "COGNOME" ∧ rest ≠ []) :=
        fun hq => hc hq.1
      simp only [scanCells, if_neg hcond]
      by_cases hn : pyUpper (pyStrip (c.getD "")) = "NOME" ∧ rest ≠ []
      · rw [if_pos hn]
        have step : ∀ acc2 : String × String, acc2.1 = acc.1 →
            (scanCells rest acc2).1 = acc.1 := fun acc2 h2 => by
          rw [ih (i + 1) acc2 h, h2]
        apply step
        cases hh : rest.head? with
        | none => rfl
        | some o =>
          cases o with
          | none => rfl
          | some s =>
            by_cases hs : s ≠ ""
            · simp [hs]
            · simp [hs]
      · rw [if_neg hn]
        exact ih (i + 1) acc h

/-- A row without the name label leaves the name accumulator
unchanged. -/
theorem scanCells_snd_nil :
    ∀ (row : Row) (i : Nat) (acc : String × String),
      rowLabelIdx "NOME" row i = [] → (scanCells row acc).2 = acc.2 := by
  intro row
  induction row with
  | nil => intro i acc _; rfl
  | cons c rest ih =>
    intro i acc h
    rw [rowLabelIdx] at h
    by_cases hn : pyUpper (pyStrip (c.getD "")) = "NOME"
    · rw [if_pos hn] at h
      exact absurd h (by simp)
    · rw [if_neg hn] at h
      have hcond : ¬(pyUpper (pyStrip (c.getD "")) = "NOME" ∧ rest ≠ []) :=
        fun hq => hn hq.1
      simp only [scanCells, if_neg hcond]
      by_cases hg : pyUpper (pyStrip (c.getD "")) = "COGNOME" ∧ rest ≠ []
      · rw [if_pos hg]
        have step : ∀ acc2 : String × String, acc2.2 = acc.2 →
            (scanCells rest acc2).2 = acc.2 := fun acc2 h2 => by
          rw [ih (i + 1) acc2 h, h2]
        apply step
        cases hh : rest.head? with
        | none => rfl
        | some o =>
          cases o with
          | none => rfl
          | some s =>
            by_cases hs : s ≠ ""
            · simp [hs]
            · simp [hs]
      · rw [if_neg hg]
        exact ih (i + 1) acc h

/-- A row whose only surname label sits at position `j` (counting from
`i`) sets the surname accumulator, when still empty, to the follower
value of that position. -/
theorem scanCells_fst_single :
    ∀ (row : Row) (i j : Nat) (acc : String × String),
      rowLabelIdx "COGNOME" row i = [j] → acc.1 = "" →
      (scanCells row acc).1 = followVal row (j - i) := by
  intro row
  induction row with
  | nil => intro i j acc h _; exact absurd h (by simp [rowLabelIdx])
  | cons c rest ih =>
    intro i j acc h hacc
    rw [rowLabelIdx] at h
    by_cases hc : pyUpper (pyStrip (c.getD "")) = "COGNOME"
    · rw [if_pos hc] at h
      injection h with h1 hrest
      subst h1
      rw [Nat.sub_self]
      cases rest with
      | nil =>
        have hcond : ¬(pyUpper (pyStrip (c.getD "")) = "COGNOME" ∧
            ([] : Row) ≠ []) := by simp
        have hn : ¬(pyUpper (pyStrip (c.getD "")) = "NOME" ∧
            ([] : Row) ≠ []) := by simp
        simp only [scanCells, if_neg hcond, if_neg hn]
        exact hacc
      | cons c2 rest2 =>
        have hcond : pyUpper (pyStrip (c.getD "")) = "COGNOME" ∧
            (c2 :: rest2 : Row) ≠ [] := ⟨hc, by simp⟩
        rw [scanCells]
        simp only [if_pos hcond]
        have hkey : ∀ acc2 : String × String,
            (scanCells (c2 :: rest2) acc2).1 = acc2.1 :=
          fun acc2 => scanCells_fst_nil (c2 :: rest2) (i + 1) acc2 hrest
        rw [hkey]
        cases c2 with
        | none => exact hacc
        | some s =>
          by_cases hs : s ≠ ""
          · simp [followVal, hs]
          · simp [followVal, hs, hacc]
    · rw [if_neg hc] at h
      have hij : i + 1 ≤ j :=
        rowLabelIdx_ge "COGNOME" rest (i + 1) j
          (by rw [h]; exact List.mem_singleton.mpr rfl)
      have hcond : ¬(pyUpper (pyStrip (c.getD "")) = "COGNOME" ∧ rest ≠ []) :=
        fun hq => hc hq.1
      simp only [scanCells, if_neg hcond]
      have hfv : followVal (c :: rest) (j - i) = followVal rest (j - i - 1) :=
        followVal_cons_ge c rest (j - i) (by omega)
      have harith : j - i - 1 = j - (i + 1) := by omega
      rw [hfv, harith]
      by_cases hn : pyUpper (pyStrip (c.getD "")) = "NOME" ∧ rest ≠ []
      · rw [if_pos hn]
        have hstep : ∀ acc2 : String × String, acc2.1 = "" →
            (scanCells rest acc2).1 = followVal rest (j - (i + 1)) :=
          fun acc2 h2 => ih (i + 1) j acc2 h h2
        apply hstep
        cases hh : rest.head? with
        | none => exact hacc
        | some o =>
          cases o with
          | none => exact hacc
          | some s =>
            by_cases hs : s ≠ ""
            · simp [hs, hacc]
            · simp [hs, hacc]
      · rw [if_neg hn]
        exact ih (i + 1) j acc h hacc

/-- A row whose only name label sits at position `j` (counting from
`i`) sets the name accumulator, when still empty, to the follower
value of that position. -/
theorem scanCells_snd_single :
    ∀ (row : Row) (i j : Nat) (acc : String × String),
      rowLabelIdx "NOME" row i = [j] → acc.2 = "" →
      (scanCells row acc).2 = followVal row (j - i) := by
  intro row
  induction row with
  | nil => intro i j acc h _; exact absurd h (by simp [rowLabelIdx])
  | cons c rest ih =>
    intro i j acc h hacc
    rw [rowLabelIdx] at h
    by_cases hn : pyUpper (pyStrip (c.getD "")) = "NOME"
    · rw [if_pos hn] at h
      injection h with h1 hrest
      subst h1
      rw [Nat.sub_self]
      have hg : ¬(pyUpper (pyStrip (c.getD "")) = "COGNOME" ∧ rest ≠ []) := by
        rw [hn]; simp
      cases rest with
      | nil =>
        have hcond : ¬(pyUpper (pyStrip (c.getD "")) = "NOME" ∧
            ([] : Row) ≠ []) := by simp
        simp only [scanCells, if_neg hg, if_neg hcond]
        exact hacc
      | cons c2 rest2 =>
        have hcond : pyUpper (pyStrip (c.getD "")) = "NOME" ∧
            (c2 :: rest2 : Row) ≠ [] := ⟨hn, by simp⟩
        rw [scanCells]
        simp only [if_neg hg, if_pos hcond]
        have hkey : ∀ acc2 : String × String,
            (scanCells (c2 :: rest2) acc2).2 = acc2.2 :=
          fun acc2 => scanCells_snd_nil (c2 :: rest2) (i + 1) acc2 hrest
        rw [hkey]
        cases c2 with
        | none => exact hacc
        | some s =>
          by_cases hs : s ≠ ""
          · simp [followVal, hs]
          · simp [followVal, hs, hacc]
    · rw [if_neg hn] at h
      have hij : i + 1 ≤ j :=
        rowLabelIdx_ge "NOME" rest (i + 1) j
          (by rw [h]; exact List.mem_singleton.mpr rfl)
      have hcond : ¬(pyUpper (pyStrip (c.getD "")) = "NOME" ∧ rest ≠ []) :=
        fun hq => hn hq.1
      simp only [scanCells]
      have hfv : followVal (c :: rest) (j - i) = followVal rest (j - i - 1) :=
        followVal_cons_ge c rest (j - i) (by omega)
      have harith : j - i - 1 = j - (i + 1) := by omega
      rw [hfv, harith]
      by_cases hg : pyUpper (pyStrip (c.getD "")) = "COGNOME" ∧ rest ≠ []
      · rw [if_pos hg]
        have hstep : ∀ acc2 : String × String, acc2.2 = "" →
            (scanCells rest acc2).2 = followVal rest (j - (i + 1)) :=
          fun acc2 h2 => ih (i + 1) j acc2 h h2
        apply hstep
        cases hh : rest.head? with
        | none => exact hacc
        | some o =>
          cases o with
          | none => exact hacc
          | some s =>
            by_cases hs : s ≠ ""
            · simp [hs, hacc]
            · simp [hs, hacc]
      · rw [if_neg hg, if_neg hcond]
        exact ih (i + 1) j acc h hacc

/-- A table without the surname label anywhere leaves the surname
accumulator unchanged. -/
theorem scanNamesFrom_fst_nil :
    ∀ (rows : Table) (r : Nat) (acc : String × String),
      labelPositions "COGNOME" rows r = [] →
      (scanNamesFrom rows acc).1 = acc.1 := by
  intro rows
  induction rows with
  | nil => intro r acc _; rfl
  | cons row rest ih =>
    intro r acc h
    rw [labelPositions] at h
    rcases List.append_eq_nil.mp h with ⟨h1, h2⟩
    have hrow : rowLabelIdx "COGNOME" row 0 = [] := List.map_eq_nil_iff.mp h1
    rw [scanNamesFrom, ih (r + 1) _ h2, scanCells_fst_nil row 0 acc hrow]

/-- A table without the name label anywhere leaves the name
accumulator unchanged. -/
theorem scanNamesFrom_snd_nil :
    ∀ (rows : Table) (r : Nat) (acc : String × String),
      labelPositions "NOME" rows r = [] →
      (scanNamesFrom rows acc).2 = acc.2 := by
  intro rows
  induction rows with
  | nil => intro r acc _; rfl
  | cons row rest ih =>
    intro r acc h
    rw [labelPositions] at h
    rcases List.append_eq_nil.mp h with ⟨h1, h2⟩
    have hrow : rowLabelIdx "NOME" row 0 = [] := List.map_eq_nil_iff.mp h1
    rw [scanNamesFrom, ih (r + 1) _ h2, scanCells_snd_nil row 0 acc hrow]

/-- If the surname label occurs at exactly one position of the table
(rows counted from `r`), the surname accumulator, when still empty,
ends as the follower value of that position. -/
theorem scanNamesFrom_fst_single :
    ∀ (rows : Table) (r r0 i0 : Nat) (acc : String × String),
      labelPositions "COGNOME" rows r = [(r0, i0)] → acc.1 = "" →
      (scanNamesFrom rows acc).1 = followVal (rows.getD (r0 - r) []) i0 := by
  intro rows
  induction rows with
  | nil => intro r r0 i0 acc h _; exact absurd h (by simp [labelPositions])
  | cons row rest ih =>
    intro r r0 i0 acc h hacc
    rw [labelPositions] at h
    cases hrow : rowLabelIdx "COGNOME" row 0 with
    | nil =>
      rw [hrow, List.map_nil, List.nil_append] at h
      have hge : r + 1 ≤ r0 :=
        labelPositions_ge "COGNOME" rest (r + 1) (r0, i0)
          (by rw [h]; exact List.mem_singleton.mpr rfl)
      have hsub : r0 - r = (r0 - (r + 1)) + 1 := by omega
      rw [scanNamesFrom, hsub, List.getD_cons_succ]
      have hacc2 : (scanCells row acc).1 = "" := by
        rw [scanCells_fst_nil row 0 acc hrow]; exact hacc
      exact ih (r + 1) r0 i0 (scanCells row acc) h hacc2
    | cons j t =>
      rw [hrow, List.map_cons, List.cons_append] at h
      injection h with h1 h2
      rcases List.append_eq_nil.mp h2 with ⟨ht, hrest⟩
      have ht2 : t = [] := List.map_eq_nil_iff.mp ht
      subst ht2
      injection h1 with hr hi
      subst hr
      subst hi
      rw [Nat.sub_self, List.getD_cons_zero, scanNamesFrom]
      rw [scanNamesFrom_fst_nil rest (r + 1) _ hrest]
      have := scanCells_fst_single row 0 j acc hrow hacc
      rwa [Nat.sub_zero] at this

/-- If the name label occurs at exactly one position of the table
(rows counted from `r`), the name accumulator, when still empty, ends
as the follower value of that position. -/
theorem scanNamesFrom_snd_single :
    ∀ (rows : Table) (r r0 i0 : Nat) (acc : String × String),
      labelPositions "NOME" rows r = [(r0, i0)] → acc.2 = "" →
      (scanNamesFrom rows acc).2 = followVal (rows.getD (r0 - r) []) i0 := by
  intro rows
  induction rows with
  | nil => intro r r0 i0 acc h _; exact absurd h (by simp [labelPositions])
  | cons row rest ih =>
    intro r r0 i0 acc h hacc
    rw [labelPositions] at h
    cases hrow : rowLabelIdx "NOME" row 0 with
    | nil =>
      rw [hrow, List.map_nil, List.nil_append] at h
      have hge : r + 1 ≤ r0 :=
        labelPositions_ge "NOME" rest (r + 1) (r0, i0)
          (by rw [h]; exact List.mem_singleton.mpr rfl)
      have hsub : r0 - r = (r0 - (r + 1)) + 1 := by omega
      rw [scanNamesFrom, hsub, List.getD_cons_succ]
      have hacc2 : (scanCells row acc).2 = "" := by
        rw [scanCells_snd_nil row 0 acc hrow]; exact hacc
      exact ih (r + 1) r0 i0 (scanCells row acc) h hacc2
    | cons j t =>
      rw [hrow, List.map_cons, List.cons_append] at h
      injection h with h1 h2
      rcases List.append_eq_nil.mp h2 with ⟨ht, hrest⟩
      have ht2 : t = [] := List.map_eq_nil_iff.mp ht
      subst ht2
      injection h1 with hr hi
      subst hr
      subst hi
      rw [Nat.sub_self, List.getD_cons_zero, scanNamesFrom]
      rw [scanNamesFrom_snd_nil rest (r + 1) _ hrest]
      have := scanCells_snd_single row 0 j acc hrow hacc
      rwa [Nat.sub_zero] at this

/-- Claim C9: when the table holds exactly one cell whose stripped
case-insensitive text is `COGNOME` (resp. `NOME`), the extracted
surname (resp. name) is the stripped text of the cell immediately
following it, or the empty string when that cell is absent or empty
(with duplicated labels the scan would keep the last nonempty
follower, so uniqueness pins down "the" following cell of the
claim). -/
theorem scanNames_labels (rows : Table) (r0 i0 r1 j1 : Nat) :
    (labelPositions "COGNOME" rows 0 = [(r0, i0)] →
      (scanNames rows).1 = followVal (rows.getD r0 []) i0)
    ∧ (labelPositions "NOME" rows 0 = [(r1, j1)] →
      (scanNames rows).2 = followVal (rows.getD r1 []) j1) := by
  constructor
  · intro h
    have := scanNamesFrom_fst_single rows 0 r0 i0 ("", "") h rfl
    rwa [Nat.sub_zero] at this
  · intro h
    have := scanNamesFrom_snd_single rows 0 r1 j1 ("", "") h rfl
    rwa [Nat.sub_zero] at this

/-- Witness for `scanNames_labels` on the concrete table `W9`. -/
theorem scanNames_labels_witness :
    labelPositions "COGNOME" W9 0 = [(0, 0)]
    ∧ labelPositions "NOME" W9 0 = [(1, 0)]
    ∧ (scanNames W9).1 = followVal (W9.getD 0 []) 0
    ∧ (scanNames W9).2 = followVal (W9.getD 1 []) 0 :=
  ⟨by decide, by decide,
    (scanNames_labels W9 0 0 1 0).1 (by decide),
    (scanNames_labels W9 0 0 1 0).2 (by decide)⟩

end SixMWT
